import Mathlib

/-!
Shallow embedding of the multi-agent-debate orchestration core
(`debate_system/core/memory.py`, `debate_system/core/orchestrator.py`,
`debate_system/agents/aristotle.py`, `debate_system/utils/validators.py`).

Modelling conventions:
* Python strings are Lean `String`s; text processing (lowercasing, substring
  containment, the small regexes) is carried out on `String.data : List Char`
  with structurally recursive functions so that proofs can evaluate them.
* `MemoryEntry.timestamp` is an ISO-8601 wall-clock string in the source,
  compared lexicographically by Python's `sorted`; it is modelled as a value
  of an arbitrary linearly ordered type `τ`, and each mutating call takes the
  current timestamp as an explicit argument (abstracting `datetime.now()`).
* The Python `dict` backing `MemoryStore.entries` is modelled as an
  insertion-ordered association list: overwriting an existing key keeps its
  position, a new key is appended, exactly as CPython dicts behave.
* External effects (LLM generation, HTTP tools, the `random` module, disk
  persistence) are oracles passed in as function arguments: agent replies are
  `Nat → String → List Turn → Except String String` (attempt index, question,
  history — an `Except.error` models a raised exception), shuffling is an
  abstract `List Agent → G → List Agent × G` on an abstract generator state
  `G`, and `_save`/`_load` (pure I/O, no effect on in-memory entries) are
  omitted.
-/

namespace DebateSystem

/-! ### Character-level text utilities (Python `str` operations) -/

/-- Whitespace stripped by Python `str.strip` (ASCII subset). -/
def is_space (c : Char) : Bool :=
  c = ' ' || c = '\t' || c = '\n' || c = '\r' || c = '\x0b' || c = '\x0c'

/-- Python `str.strip`: drop leading and trailing whitespace. -/
def trim_chars (l : List Char) : List Char :=
  ((l.dropWhile is_space).reverse.dropWhile is_space).reverse

/-- Python `text.startswith(pre)` on explicit character lists. -/
def starts_with_chars : List Char → List Char → Bool
  | _, [] => true
  | [], _ :: _ => false
  | a :: as, b :: bs => a = b && starts_with_chars as bs

/-- Python `sub in text` (substring containment) on character lists. -/
def contains_chars : List Char → List Char → Bool
  | [], sub => sub.isEmpty
  | c :: rest, sub => starts_with_chars (c :: rest) sub || contains_chars rest sub

/-- Python `str.lower` (ASCII case folding, as in the prompts involved). -/
def lower_str (s : String) : List Char :=
  s.data.map Char.toLower

/-- Python `str.strip` packaged back into a string. -/
def py_strip (s : String) : String :=
  String.mk (trim_chars s.data)

/-! ### Memory store (`debate_system/core/memory.py`) -/

variable {τ : Type} [LinearOrder τ]

/-- Mirrors `MemoryEntry`: a single memory entry with metadata. `value` is
stringly typed in the claims involved (`str(value)` is what the code
compares and renders). -/
structure MemoryEntry (τ : Type) where
  key : String
  value : String
  timestamp : τ
  source : String
deriving DecidableEq

/-- Mirrors `MemoryStore`: `entries` is the backing dict in insertion order;
`persist_path`/`auto_save` only drive disk I/O (`_save`/`_load`) and never
change the in-memory entries, so they are not carried. -/
structure MemoryStore (τ : Type) where
  max_entries : Nat
  entries : List (MemoryEntry τ)
deriving DecidableEq

/-- Number of entries (`len(self.entries)` / `__len__`). -/
def MemoryStore.size (s : MemoryStore τ) : Nat :=
  s.entries.length

/-- CPython dict update `self.entries[key] = entry`: replace in place if the
key is present, append otherwise. -/
def dict_insert : List (MemoryEntry τ) → MemoryEntry τ → List (MemoryEntry τ)
  | [], e => [e]
  | x :: xs, e => if x.key = e.key then e :: xs else x :: dict_insert xs e

/-- CPython `self.entries.pop(key, None)`: remove the binding for `key`
(first occurrence; keys are unique in a dict). -/
def dict_pop (k : String) : List (MemoryEntry τ) → List (MemoryEntry τ)
  | [] => []
  | x :: xs => if x.key = k then xs else x :: dict_pop k xs

/-- Sort key of `sorted(self.entries.values(), key=lambda e: e.timestamp)`. -/
def ts_le (a b : MemoryEntry τ) : Prop :=
  a.timestamp ≤ b.timestamp

/-- Comparison used by `sorted(..., reverse=True)` (descending, stable). -/
def ts_ge (a b : MemoryEntry τ) : Prop :=
  b.timestamp ≤ a.timestamp

instance : DecidableRel (ts_le (τ := τ)) :=
  fun a b => inferInstanceAs (Decidable (a.timestamp ≤ b.timestamp))

instance : DecidableRel (ts_ge (τ := τ)) :=
  fun a b => inferInstanceAs (Decidable (b.timestamp ≤ a.timestamp))

instance : IsTotal (MemoryEntry τ) ts_le :=
  ⟨fun a b => le_total a.timestamp b.timestamp⟩

instance : IsTrans (MemoryEntry τ) ts_le :=
  ⟨fun _ _ _ h1 h2 => le_trans h1 h2⟩

instance : IsTotal (MemoryEntry τ) ts_ge :=
  ⟨fun a b => le_total b.timestamp a.timestamp⟩

instance : IsTrans (MemoryEntry τ) ts_ge :=
  ⟨fun _ _ _ h1 h2 => le_trans h2 h1⟩

/-- Python `sorted(values, key=lambda e: e.timestamp)`: a stable ascending
sort by timestamp (insertion sort is stable, like Timsort, and any two
stable sorts agree). -/
def sorted_by_timestamp (l : List (MemoryEntry τ)) : List (MemoryEntry τ) :=
  List.insertionSort ts_le l

/-- Python `sorted(values, key=lambda e: e.timestamp, reverse=True)`:
stable descending sort (ties keep insertion order). -/
def sorted_desc_by_timestamp (l : List (MemoryEntry τ)) : List (MemoryEntry τ) :=
  List.insertionSort ts_ge l

/-- Mirrors `MemoryStore.add_entry`: upsert under `key` with the current
timestamp, then, if the count exceeds `max_entries`, drop the entry with the
smallest timestamp (`sorted(...)[0].key` followed by `pop`). -/
def MemoryStore.add_entry (s : MemoryStore τ) (key value : String) (now : τ)
    (source : String) : MemoryStore τ :=
  ⟨s.max_entries,
    if s.max_entries < (dict_insert s.entries ⟨key, value, now, source⟩).length then
      ((sorted_by_timestamp (dict_insert s.entries ⟨key, value, now, source⟩)).head?).elim
        (dict_insert s.entries ⟨key, value, now, source⟩)
        (fun oldest => dict_pop oldest.key (dict_insert s.entries ⟨key, value, now, source⟩))
    else dict_insert s.entries ⟨key, value, now, source⟩⟩

/-- Mirrors `MemoryStore.get_entry`. -/
def MemoryStore.get_entry (s : MemoryStore τ) (key : String) : Option String :=
  (s.entries.find? (fun e => e.key == key)).map MemoryEntry.value

/-- Mirrors `MemoryStore.get_recent`: the `n` most recent entries,
newest first. -/
def MemoryStore.get_recent (s : MemoryStore τ) (n : Nat) : List (MemoryEntry τ) :=
  (sorted_desc_by_timestamp s.entries).take n

/-- Rendering of one entry line inside `format_for_prompt`. -/
def render_entry (e : MemoryEntry τ) : String :=
  "- " ++ e.key ++ ": " ++ e.value ++ " (from " ++ e.source ++ ")"

/-- Mirrors `MemoryStore.format_for_prompt`: the fixed no-memory sentinel on
an empty digest, otherwise a header line plus one line per recent entry. -/
def MemoryStore.format_for_prompt (s : MemoryStore τ) (limit : Nat) : String :=
  let recent := s.get_recent limit
  if recent.isEmpty then "No relevant memory."
  else
    String.intercalate "\n"
      ("Recent relevant context:" :: recent.map render_entry)

/-- One `add_entry` call with its arguments (timestamp included, standing in
for the `datetime.now()` sample taken during that call). -/
structure AddOp (τ : Type) where
  key : String
  value : String
  timestamp : τ
  source : String

/-- A sequence of `add_entry` calls applied in order. -/
def apply_adds (s : MemoryStore τ) (ops : List (AddOp τ)) : MemoryStore τ :=
  ops.foldl (fun acc o => acc.add_entry o.key o.value o.timestamp o.source) s

/-- First entry of the list achieving the minimal timestamp; this is what
`sorted(..., key=timestamp)[0]` returns, Python's sort being stable. -/
def first_min (a : MemoryEntry τ) : List (MemoryEntry τ) → MemoryEntry τ
  | [] => a
  | b :: l => if a.timestamp ≤ (first_min b l).timestamp then a else first_min b l

/-! ### Transcript and frames (`stream_debate` data model) -/

/-- One transcript turn: the dicts appended to `history`. The seed user turn
and the summary turn carry no `round` field (`none`). -/
structure Turn where
  speaker : String
  content : String
  round : Option Nat
deriving DecidableEq

/-- One streamed frame: the dict yielded by `stream_debate`. -/
structure Frame where
  question : String
  history : List Turn
  summary : Option String
  error : Option String
  status : String
deriving DecidableEq

/-- Frame constructor used on the `started`/`debating` paths (summary and
error both absent). -/
def mk_frame (q : String) (hist : List Turn) (status : String) : Frame :=
  ⟨q, hist, none, none, status⟩

/-- The `{}` a batch `run_debate` would return on an empty stream
(unreachable: the stream always yields a `started` frame first). -/
def empty_frame : Frame :=
  ⟨"", [], none, none, ""⟩

/-- Mirrors `OrchestratorConfig`. -/
structure OrchestratorConfig where
  default_rounds : Nat
  enable_summary : Bool
  random_seed : Option Nat
  max_retries : Nat
  random_order : Bool

/-- A registered debating persona. `key` is its registry key (used in the
retry sentinel), `name` its display name (used as turn speaker). `reply`
abstracts `generate_response(question, history, memory)` for each retry
attempt: `Except.error` models a raised exception. The reply's dependence on
the memory argument, and any memory writes it performs internally, do not
affect the orchestration-level properties proved here and are absorbed into
the oracle. -/
structure Agent where
  key : String
  name : String
  reply : Nat → String → List Turn → Except String String

/-- Mirrors `ensure_non_empty` (`utils/validators.py`): reject an empty or
whitespace-only string, return the stripped text otherwise. -/
def ensure_non_empty (text field : String) : Except String String :=
  if text = "" ∨ trim_chars text.data = [] then .error (field ++ " cannot be empty")
  else .ok (py_strip text)

/-- The in-transcript sentinel produced when every retry attempt raised. -/
def error_sentinel (agent_key : String) (n : Nat) : String :=
  "[Error: " ++ agent_key ++ " failed after " ++ toString n ++ " attempts]"

/-- The `for attempt in range(max_retries)` loop body of
`_get_agent_response`: try the attempts `start, start+1, …` (`remaining` of
them); the first successful reply short-circuits. -/
def attempt_loop (a : Agent) (q : String) (hist : List Turn) :
    Nat → Nat → Option String
  | _, 0 => none
  | start, n + 1 =>
    match a.reply start q hist with
    | .ok s => some s
    | .error _ => attempt_loop a q hist (start + 1) n

/-- Mirrors `DebateOrchestrator._get_agent_response`: up to `max_retries`
sequential attempts, then the error sentinel. -/
def get_agent_response (max_retries : Nat) (a : Agent) (q : String)
    (hist : List Turn) : String :=
  (attempt_loop a q hist 0 max_retries).getD (error_sentinel a.key max_retries)

variable {G : Type}

/-- Mirrors `_agent_order`: the debating agents, shuffled through the shared
pseudo-random source when `random_order` is set. -/
def agent_order (cfg : OrchestratorConfig) (agents : List Agent)
    (shuffle : List Agent → G → List Agent × G) (g : G) : List Agent × G :=
  if cfg.random_order then shuffle agents g else (agents, g)

/-- The inner `for agent_key, agent in self._agent_order()` loop of one
round: one reply, one appended turn, one `debating` frame per agent. -/
def run_order (max_retries : Nat) (q : String) (round_idx : Nat) :
    List Agent → List Turn → List Frame → List Turn × List Frame
  | [], hist, frames => (hist, frames)
  | a :: rest, hist, frames =>
    let response := get_agent_response max_retries a q hist
    let hist2 := hist ++ [⟨a.name, response, some round_idx⟩]
    run_order max_retries q round_idx rest hist2
      (frames ++ [mk_frame q hist2 "debating"])

/-- The outer `for round_idx in range(1, rounds + 1)` loop, over the list of
round indices; the generator state is consumed only by `agent_order`. -/
def run_rounds (cfg : OrchestratorConfig) (agents : List Agent)
    (shuffle : List Agent → G → List Agent × G) (max_retries : Nat) (q : String) :
    List Nat → G → List Turn → List Frame → List Turn × List Frame × G
  | [], g, hist, frames => (hist, frames, g)
  | r :: rs, g, hist, frames =>
    let og := agent_order cfg agents shuffle g
    let hf := run_order max_retries q r og.1 hist frames
    run_rounds cfg agents shuffle max_retries q rs og.2 hf.1 hf.2

/-- Python `rounds = rounds or self.config.default_rounds` (`None` and `0`
are both falsy). -/
def resolve_rounds (cfg : OrchestratorConfig) : Option Nat → Nat
  | some r => if r = 0 then cfg.default_rounds else r
  | none => cfg.default_rounds

/-- The post-rounds summary step: on success the summary turn is appended
and the summary text recorded; a raised exception is caught and logged,
leaving both untouched. -/
def apply_summary (summarizer : Option (String → List Turn → Except String String))
    (enabled : Bool) (q : String) (hist : List Turn) : List Turn × Option String :=
  if enabled then
    match summarizer with
    | some summ =>
      match summ q hist with
      | .ok stext => (hist ++ [⟨"Summary", stext, none⟩], some stext)
      | .error _ => (hist, none)
    | none => (hist, none)
  else (hist, none)

/-- Mirrors `DebateOrchestrator.stream_debate`. Returns the full list of
yielded frames (or the validation error raised before any yield), the memory
store after the orchestrator's own writes, and the final generator state.
`summarizer` is `self.agents["summary"].generate_response` when that agent
is registered; `now` is the timestamp of the `initial_question` write. -/
def stream_debate (cfg : OrchestratorConfig) (agents : List Agent)
    (summarizer : Option (String → List Turn → Except String String))
    (shuffle : List Agent → G → List Agent × G) (g : G)
    (mem : MemoryStore τ) (now : τ) (question : String)
    (rounds? : Option Nat) (enable_summary? : Option Bool) :
    Except String (List Frame) × MemoryStore τ × G :=
  match ensure_non_empty question "question" with
  | .error e => (.error e, mem, g)
  | .ok q =>
    let rounds := resolve_rounds cfg rounds?
    let es := enable_summary?.getD cfg.enable_summary
    let hist0 : List Turn := [⟨"User", q, none⟩]
    let mem2 := mem.add_entry "initial_question" q now "user"
    let z := run_rounds cfg agents shuffle cfg.max_retries q
      (List.range' 1 rounds) g hist0 [mk_frame q hist0 "started"]
    let w := apply_summary summarizer es q z.1
    (.ok (z.2.1 ++ [⟨q, w.1, w.2, none, "completed"⟩]), mem2, z.2.2)

/-- Mirrors `DebateOrchestrator.run_debate`: drive the stream to exhaustion
and keep the last frame; an exception from the generator propagates. -/
def run_debate (cfg : OrchestratorConfig) (agents : List Agent)
    (summarizer : Option (String → List Turn → Except String String))
    (shuffle : List Agent → G → List Agent × G) (g : G)
    (mem : MemoryStore τ) (now : τ) (question : String)
    (rounds? : Option Nat) (enable_summary? : Option Bool) :
    Except String Frame × MemoryStore τ × G :=
  let z := stream_debate cfg agents summarizer shuffle g mem now question
    rounds? enable_summary?
  (match z.1 with
   | .ok frames => .ok (frames.getLastD empty_frame)
   | .error e => .error e, z.2.1, z.2.2)

/-- Mirrors the constructor's `if self.config.random_seed is not None:
random.seed(self.config.random_seed)`: with a configured seed the shared
generator state after construction is `seed_fn seed`, whatever it was
before; otherwise it is left alone. -/
def seeded_rng (seed_fn : Nat → G) (seed : Option Nat) (g : G) : G :=
  match seed with
  | some s => seed_fn s
  | none => g

/-! ### Aristotle agent (`debate_system/agents/aristotle.py`) -/

/-- The `_KEYWORDS` intent list of `AristotleAgent`. -/
def aristotle_keywords : List String :=
  ["how", "plan", "steps", "action", "strategy", "research", "find", "search",
   "calculate", "current", "information about", "tell me about", "find out",
   "explain"]

/-- Search-intent keywords of `_detect_tool_needed`. -/
def web_search_keywords : List String :=
  ["search", "look up", "find", "google", "browse", "research",
   "information about", "tell me about", "find out", "explain"]

/-- Temporal keywords of `_detect_tool_needed`. -/
def current_info_keywords : List String :=
  ["current", "today", "now", "date", "time"]

/-- Question words for the `_detect_tool_needed` fallback. -/
def question_word_starts : List String :=
  ["what", "who", "where", "when", "why", "how"]

/-- Sentence starters recognised by `_extract_question_from_response`. -/
def question_sentence_starts : List String :=
  ["what", "who", "where", "when", "why", "how", "is", "are", "can"]

/-- Arithmetic operator class `[\+\-\*\/%]`. -/
def is_op_char (c : Char) : Bool :=
  c = '+' || c = '-' || c = '*' || c = '/' || c = '%'

/-- Operator class with parentheses, `[\+\-\*\/%\(\)]`. -/
def is_op_paren_char (c : Char) : Bool :=
  is_op_char c || c = '(' || c = ')'

/-- Whether `re.search(r"\d+[\+\-\*\/%]", text)` matches: equivalently, some
digit is immediately followed by an operator. -/
def has_digit_op : List Char → Bool
  | c1 :: c2 :: rest => (c1.isDigit && is_op_char c2) || has_digit_op (c2 :: rest)
  | _ => false

/-- Whether `re.search(r"\d+[\+\-\*\/%\(\)]\d+", text)` matches:
equivalently, some digit, operator, digit appear consecutively. -/
def has_digit_op_digit : List Char → Bool
  | c1 :: c2 :: c3 :: rest =>
    (c1.isDigit && is_op_paren_char c2 && c3.isDigit) ||
      has_digit_op_digit (c2 :: c3 :: rest)
  | _ => false

/-- Sentence terminators of the `re.split(r"[.!?]+", text)` pattern. -/
def is_sentence_term (c : Char) : Bool :=
  c = '.' || c = '!' || c = '?'

/-- Worker for `re.split(r"[.!?]+", text)`: a run of terminators closes the
current segment; the flag records being inside such a run. -/
def split_term_aux : List Char → List Char → Bool → List (List Char)
  | [], acc, _ => [acc.reverse]
  | c :: rest, acc, in_term =>
    if is_sentence_term c then
      if in_term then split_term_aux rest acc true
      else acc.reverse :: split_term_aux rest [] true
    else split_term_aux rest (c :: acc) false

/-- Python `re.split(r"[.!?]+", text)`. -/
def split_sentences (s : String) : List (List Char) :=
  split_term_aux s.data [] false

/-- Mirrors `AristotleAgent._extract_question_from_response`. -/
def extract_question_from_response (text : String) : String :=
  let sentences := split_sentences text
  let questions := sentences.filterMap (fun seg =>
    let st := trim_chars seg
    if question_sentence_starts.any
        (fun w => starts_with_chars (st.map Char.toLower) w.data)
    then some (String.mk st) else none)
  match questions with
  | q :: _ => q
  | [] =>
    match sentences.getLast? with
    | some last => String.mk (trim_chars last)
    | none => String.mk (trim_chars text.data)

/-- The most recent user-authored turn's content, else the question
(`_should_use_tools`'s intent source). -/
def recent_user_content (question : String) (history : List Turn) : String :=
  ((history.reverse.find?
      (fun t => t.speaker.data.map Char.toLower = "user".data)).map
    Turn.content).getD question

/-- Mirrors `AristotleAgent._should_use_tools`. -/
def should_use_tools (question : String) (history : List Turn) : Bool :=
  let text := lower_str (recent_user_content question history)
  aristotle_keywords.any (fun kw => contains_chars text kw.data) ||
    has_digit_op text

/-- Mirrors `AristotleAgent._detect_tool_needed` (ordered rules over the
lower-cased prompt). -/
def detect_tool_needed (tools_enabled : Bool) (prompt : String) : Option String :=
  if !tools_enabled then none
  else
    let text := lower_str prompt
    if has_digit_op_digit text then some "calculate"
    else if web_search_keywords.any (fun k => contains_chars text k.data) then
      some "web_search"
    else if current_info_keywords.any (fun k => contains_chars text k.data) then
      some "get_current_info"
    else if text.any Char.isDigit then some "calculate"
    else if question_word_starts.any (fun qw => starts_with_chars text qw.data) then
      some "web_search"
    else none

/-- Character class of the math-query regex `[\d\+\-\*\/%\(\)\.\s]+`. -/
def is_expr_char (c : Char) : Bool :=
  c.isDigit || is_op_paren_char c || c = '.' || is_space c

/-- `re.search(r"[\d\+\-\*\/%\(\)\.\s]+", s)`: the leftmost maximal run of
expression characters, if any. -/
def first_expr_run (s : String) : Option (List Char) :=
  match s.data.dropWhile (fun c => !is_expr_char c) with
  | [] => none
  | c :: rest => some ((c :: rest).takeWhile is_expr_char)

/-- The non-tool path of `AristotleAgent.generate_response`: one base reply;
if memory is available and the reply non-empty, record the insight entry.
`base_gen` abstracts `BaseAgent.generate_response` (which performs no memory
writes of its own). -/
def aristotle_plain_path (name : String) (base_gen : String → List Turn → String)
    (user_prompt : String) (history : List Turn)
    (memory : Option (MemoryStore τ)) (now : τ) :
    String × Option (MemoryStore τ) :=
  let response := base_gen user_prompt history
  let memory2 :=
    if response = "" then memory
    else memory.map (fun m =>
      m.add_entry ("aristotle_insight_" ++ toString history.length) response
        now name)
  (response, memory2)

/-- Mirrors `AristotleAgent.generate_response`. `tool_exec` abstracts
`execute_tool` (its list results already newline-joined, as the code does
right after the call); the tool branch records the tool result under
`tool_{tool}_{len(history)}` and returns the base reply to the augmented
prompt directly. -/
def aristotle_generate_response (tools_enabled : Bool) (name : String)
    (base_gen : String → List Turn → String)
    (tool_exec : String → String → String)
    (user_prompt : String) (history : List Turn)
    (memory : Option (MemoryStore τ)) (now : τ) :
    String × Option (MemoryStore τ) :=
  if tools_enabled && should_use_tools user_prompt history then
    match detect_tool_needed tools_enabled user_prompt with
    | some tool =>
      let query :=
        if tool = "calculate" then
          match first_expr_run user_prompt with
          | some r => String.mk (trim_chars r)
          | none => extract_question_from_response user_prompt
        else if tool = "get_current_info" then
          if contains_chars (lower_str user_prompt) "time".data then "time"
          else if contains_chars (lower_str user_prompt) "date".data ||
              contains_chars (lower_str user_prompt) "today".data then "date"
          else "datetime"
        else extract_question_from_response user_prompt
      let tool_result := tool_exec tool query
      let memory2 := memory.map (fun m =>
        m.add_entry ("tool_" ++ tool ++ "_" ++ toString history.length)
          tool_result now name)
      let enhanced := user_prompt ++ "\n\n[Tool " ++ tool ++ " Result]: " ++
        tool_result ++ "\nUse this information to craft a practical recommendation."
      (base_gen enhanced history, memory2)
    | none => aristotle_plain_path name base_gen user_prompt history memory now
  else aristotle_plain_path name base_gen user_prompt history memory now

/-! ### Memory-store lemmas -/

theorem dict_insert_length (l : List (MemoryEntry τ)) (e : MemoryEntry τ) :
    (dict_insert l e).length = l.length ∨
      (dict_insert l e).length = l.length + 1 := by
  induction l with
  | nil => right; rfl
  | cons x xs ih =>
    by_cases h : x.key = e.key
    · left; simp [dict_insert, h]
    · rcases ih with h' | h'
      · left; simp [dict_insert, h, h']
      · right; simp [dict_insert, h, h']

theorem mem_dict_insert {l : List (MemoryEntry τ)} {e x : MemoryEntry τ}
    (h : x ∈ dict_insert l e) : x = e ∨ x ∈ l := by
  induction l with
  | nil => simpa [dict_insert] using h
  | cons y ys ih =>
    by_cases hy : y.key = e.key
    · simp only [dict_insert, if_pos hy, List.mem_cons] at h
      rcases h with h | h
      · exact Or.inl h
      · exact Or.inr (List.mem_cons_of_mem _ h)
    · simp only [dict_insert, if_neg hy, List.mem_cons] at h
      rcases h with h | h
      · exact Or.inr (by simp [h])
      · rcases ih h with h' | h'
        · exact Or.inl h'
        · exact Or.inr (List.mem_cons_of_mem _ h')

theorem dict_insert_nodup {l : List (MemoryEntry τ)} {e : MemoryEntry τ}
    (h : (l.map MemoryEntry.key).Nodup) :
    ((dict_insert l e).map MemoryEntry.key).Nodup := by
  induction l with
  | nil => simp [dict_insert]
  | cons x xs ih =>
    simp only [List.map_cons, List.nodup_cons] at h
    by_cases hx : x.key = e.key
    · simp only [dict_insert, if_pos hx, List.map_cons, List.nodup_cons]
      exact ⟨hx ▸ h.1, h.2⟩
    · simp only [dict_insert, if_neg hx, List.map_cons, List.nodup_cons]
      refine ⟨?_, ih h.2⟩
      intro hmem
      obtain ⟨y, hy, hky⟩ := List.mem_map.mp hmem
      rcases mem_dict_insert hy with rfl | hy'
      · exact hx hky.symm
      · exact h.1 (List.mem_map.mpr ⟨y, hy', hky⟩)

theorem dict_pop_length {l : List (MemoryEntry τ)} {k : String}
    (h : k ∈ l.map MemoryEntry.key) : (dict_pop k l).length + 1 = l.length := by
  induction l with
  | nil => simp at h
  | cons x xs ih =>
    by_cases hx : x.key = k
    · simp [dict_pop, hx]
    · simp only [dict_pop, if_neg hx, List.length_cons]
      rw [ih ?_]
      simp only [List.map_cons, List.mem_cons] at h
      rcases h with h | h
      · exact absurd h.symm hx
      · exact h

theorem sorted_head_first_min (a : MemoryEntry τ) (l : List (MemoryEntry τ)) :
    (sorted_by_timestamp (a :: l)).head? = some (first_min a l) := by
  induction l generalizing a with
  | nil => rfl
  | cons b l ih =>
    have h := ih b
    show (List.orderedInsert ts_le a (List.insertionSort ts_le (b :: l))).head? = _
    cases hs : List.insertionSort (ts_le (τ := τ)) (b :: l) with
    | nil => rw [sorted_by_timestamp] at h; rw [hs] at h; simp at h
    | cons m rest =>
      rw [sorted_by_timestamp] at h
      rw [hs] at h
      simp only [List.head?_cons, Option.some_inj] at h
      subst h
      by_cases hle : a.timestamp ≤ (first_min b l).timestamp
      · simp [List.orderedInsert, ts_le, hle, first_min]
      · simp [List.orderedInsert, ts_le, hle, first_min]

theorem first_min_mem (a : MemoryEntry τ) (l : List (MemoryEntry τ)) :
    first_min a l ∈ a :: l := by
  induction l generalizing a with
  | nil => simp [first_min]
  | cons b l ih =>
    by_cases hle : a.timestamp ≤ (first_min b l).timestamp
    · simp only [first_min, if_pos hle]
      exact List.mem_cons_self a _
    · simp only [first_min, if_neg hle]
      exact List.mem_cons_of_mem a (ih b)

theorem first_min_le (a : MemoryEntry τ) (l : List (MemoryEntry τ)) :
    ∀ x ∈ a :: l, (first_min a l).timestamp ≤ x.timestamp := by
  induction l generalizing a with
  | nil =>
    intro x hx
    simp only [List.mem_singleton] at hx
    subst hx
    simp [first_min]
  | cons b l ih =>
    intro x hx
    rcases List.mem_cons.mp hx with rfl | hx'
    · by_cases hle : x.timestamp ≤ (first_min b l).timestamp
      · simp [first_min, hle]
      · simp only [first_min, if_neg hle]
        exact le_of_lt (not_le.mp hle)
    · by_cases hle : a.timestamp ≤ (first_min b l).timestamp
      · simp only [first_min, if_pos hle]
        exact le_trans hle (ih b x hx')
      · simp only [first_min, if_neg hle]
        exact ih b x hx'

theorem pop_first_min (l : List (MemoryEntry τ)) (a : MemoryEntry τ)
    (hnd : ((a :: l).map MemoryEntry.key).Nodup) :
    ∃ l1 l2, a :: l = l1 ++ first_min a l :: l2 ∧
      dict_pop (first_min a l).key (a :: l) = l1 ++ l2 ∧
      ∀ x ∈ l1, (first_min a l).timestamp < x.timestamp := by
  induction l generalizing a with
  | nil =>
    refine ⟨[], [], by simp [first_min], ?_, by simp⟩
    simp [first_min, dict_pop]
  | cons b l ih =>
    simp only [List.map_cons, List.nodup_cons] at hnd
    by_cases hle : a.timestamp ≤ (first_min b l).timestamp
    · refine ⟨[], b :: l, by simp [first_min, hle], ?_, by simp⟩
      simp [first_min, hle, dict_pop]
    · obtain ⟨q1, q2, hsplit, hpop, hstrict⟩ :=
        ih b (by simpa using hnd.2)
      have hmem : first_min b l ∈ b :: l := first_min_mem b l
      have hkey : ¬ a.key = (first_min b l).key := by
        intro hk
        exact hnd.1 (hk ▸ List.mem_map_of_mem MemoryEntry.key hmem)
      refine ⟨a :: q1, q2, ?_, ?_, ?_⟩
      · simp only [first_min, if_neg hle]
        rw [List.cons_append, ← hsplit]
      · simp only [first_min, if_neg hle]
        show (if a.key = (first_min b l).key then b :: l
          else a :: dict_pop (first_min b l).key (b :: l)) = (a :: q1) ++ q2
        rw [if_neg hkey, hpop]
        simp
      · intro x hx
        rcases List.mem_cons.mp hx with rfl | hx'
        · simp only [first_min, if_neg hle]
          exact not_le.mp hle
        · simp only [first_min, if_neg hle]
          exact hstrict x hx'

theorem add_entry_evicts (s : MemoryStore τ) (k v : String) (now : τ) (src : String)
    (hnd : (s.entries.map MemoryEntry.key).Nodup)
    (hover : s.max_entries < (dict_insert s.entries ⟨k, v, now, src⟩).length) :
    ∃ m l1 l2,
      dict_insert s.entries ⟨k, v, now, src⟩ = l1 ++ m :: l2 ∧
      (s.add_entry k v now src).entries = l1 ++ l2 ∧
      (∀ x ∈ dict_insert s.entries ⟨k, v, now, src⟩, m.timestamp ≤ x.timestamp) ∧
      (∀ x ∈ l1, m.timestamp < x.timestamp) := by
  have hnd' : ((dict_insert s.entries ⟨k, v, now, src⟩).map MemoryEntry.key).Nodup :=
    dict_insert_nodup hnd
  cases hins : dict_insert s.entries ⟨k, v, now, src⟩ with
  | nil => rw [hins] at hover; simp at hover
  | cons a rest =>
    rw [hins] at hnd'
    obtain ⟨l1, l2, hsplit, hpop, hstrict⟩ := pop_first_min rest a hnd'
    refine ⟨first_min a rest, l1, l2, hsplit, ?_, first_min_le a rest, hstrict⟩
    simp only [MemoryStore.add_entry]
    rw [hins, if_pos (hins ▸ hover), sorted_head_first_min, Option.elim_some]
    exact hpop

theorem add_entry_size_le (s : MemoryStore τ) (k v : String) (now : τ) (src : String)
    (hinv : s.size ≤ s.max_entries) :
    (s.add_entry k v now src).size ≤ s.max_entries := by
  by_cases hover : s.max_entries < (dict_insert s.entries ⟨k, v, now, src⟩).length
  · cases hins : dict_insert s.entries ⟨k, v, now, src⟩ with
    | nil => rw [hins] at hover; simp at hover
    | cons a rest =>
      have hm : first_min a rest ∈ a :: rest := first_min_mem a rest
      have hk : (first_min a rest).key ∈ (a :: rest).map MemoryEntry.key :=
        List.mem_map_of_mem _ hm
      have hlen := dict_pop_length hk
      have hins_len := dict_insert_length s.entries (⟨k, v, now, src⟩ : MemoryEntry τ)
      rw [hins] at hins_len
      rw [hins] at hover
      simp only [MemoryStore.size] at hinv ⊢
      simp only [MemoryStore.add_entry]
      rw [hins, if_pos hover, sorted_head_first_min, Option.elim_some]
      omega
  · simp only [MemoryStore.size] at hinv ⊢
    simp only [MemoryStore.add_entry]
    rw [if_neg hover]
    exact Nat.le_of_not_lt hover

theorem apply_adds_max (s : MemoryStore τ) (ops : List (AddOp τ)) :
    (apply_adds s ops).max_entries = s.max_entries := by
  induction ops generalizing s with
  | nil => rfl
  | cons o ops ih =>
    exact ih (s.add_entry o.key o.value o.timestamp o.source)

theorem apply_adds_size_le (s : MemoryStore τ) (ops : List (AddOp τ))
    (hinv : s.size ≤ s.max_entries) :
    (apply_adds s ops).size ≤ s.max_entries := by
  induction ops generalizing s with
  | nil => exact hinv
  | cons o ops ih =>
    exact ih (s.add_entry o.key o.value o.timestamp o.source)
      (add_entry_size_le s o.key o.value o.timestamp o.source hinv)

/-! ### Orchestrator lemmas -/

theorem ensure_non_empty_ok {text : String} (h : trim_chars text.data ≠ [])
    (field : String) :
    ensure_non_empty text field = .ok (py_strip text) := by
  unfold ensure_non_empty
  rw [if_neg]
  rintro (h1 | h2)
  · exact h (by simp [h1, trim_chars])
  · exact h h2

theorem ensure_non_empty_err {text : String} (h : trim_chars text.data = [])
    (field : String) :
    ensure_non_empty text field = .error (field ++ " cannot be empty") := by
  unfold ensure_non_empty
  rw [if_pos (Or.inr h)]

theorem resolve_rounds_pos (cfg : OrchestratorConfig) {R : Nat} (hR : 1 ≤ R) :
    resolve_rounds cfg (some R) = R := by
  show (if R = 0 then cfg.default_rounds else R) = R
  rw [if_neg (by omega)]

theorem attempt_loop_all_fail (a : Agent) (q : String) (hist : List Turn) :
    ∀ (n start : Nat),
      (∀ j, j < n → ∃ e, a.reply (start + j) q hist = .error e) →
      attempt_loop a q hist start n = none := by
  intro n
  induction n with
  | zero => intro start _; rfl
  | succ m ih =>
    intro start h
    obtain ⟨e, he⟩ := h 0 (Nat.succ_pos m)
    rw [Nat.add_zero] at he
    show (match a.reply start q hist with
      | .ok s => some s
      | .error _ => attempt_loop a q hist (start + 1) m) = none
    rw [he]
    exact ih (start + 1) (fun j hj => by
      obtain ⟨e', he'⟩ := h (j + 1) (Nat.succ_lt_succ hj)
      exact ⟨e', by rw [show start + 1 + j = start + (j + 1) by omega]; exact he'⟩)

theorem attempt_loop_first_success (a : Agent) (q : String) (hist : List Turn) :
    ∀ (n start i : Nat) (s : String), i < n →
      a.reply (start + i) q hist = .ok s →
      (∀ j, j < i → ∃ e, a.reply (start + j) q hist = .error e) →
      attempt_loop a q hist start n = some s := by
  intro n
  induction n with
  | zero => intro start i s hi; omega
  | succ m ih =>
    intro start i s hi hok hfail
    show (match a.reply start q hist with
      | .ok s => some s
      | .error _ => attempt_loop a q hist (start + 1) m) = some s
    cases i with
    | zero =>
      rw [Nat.add_zero] at hok
      rw [hok]
    | succ i' =>
      obtain ⟨e, he⟩ := hfail 0 (Nat.succ_pos i')
      rw [Nat.add_zero] at he
      rw [he]
      exact ih (start + 1) i' s (by omega)
        (by rw [show start + 1 + i' = start + (i' + 1) by omega]; exact hok)
        (fun j hj => by
          obtain ⟨e', he'⟩ := hfail (j + 1) (Nat.succ_lt_succ hj)
          exact ⟨e', by rw [show start + 1 + j = start + (j + 1) by omega]; exact he'⟩)

theorem get_agent_response_all_fail (max_retries : Nat) (a : Agent) (q : String)
    (hist : List Turn)
    (h : ∀ i, i < max_retries → ∃ e, a.reply i q hist = .error e) :
    get_agent_response max_retries a q hist = error_sentinel a.key max_retries := by
  unfold get_agent_response
  rw [attempt_loop_all_fail a q hist max_retries 0
    (fun j hj => by simpa using h j hj)]
  rfl

theorem get_agent_response_first_success (max_retries : Nat) (a : Agent)
    (q : String) (hist : List Turn) (i : Nat) (s : String)
    (hi : i < max_retries) (hok : a.reply i q hist = .ok s)
    (hfail : ∀ j, j < i → ∃ e, a.reply j q hist = .error e) :
    get_agent_response max_retries a q hist = s := by
  unfold get_agent_response
  rw [attempt_loop_first_success a q hist max_retries 0 i s hi
    (by simpa using hok) (fun j hj => by simpa using hfail j hj)]
  rfl

theorem agent_order_perm (cfg : OrchestratorConfig) (agents : List Agent)
    (shuffle : List Agent → G → List Agent × G)
    (hsh : ∀ l g, ((shuffle l g).1).Perm l) (g : G) :
    ((agent_order cfg agents shuffle g).1).Perm agents := by
  unfold agent_order
  split
  · exact hsh agents g
  · exact List.Perm.refl agents

theorem run_order_spec (max_retries : Nat) (q : String) (r : Nat) :
    ∀ (order : List Agent) (hist : List Turn) (frames : List Frame),
      ∃ ts : List Turn,
        (run_order max_retries q r order hist frames).1 = hist ++ ts ∧
        ts.length = order.length ∧
        ∀ t ∈ ts, t.round = some r ∧
          ∃ a ∈ order, ∃ h : List Turn,
            t.speaker = a.name ∧
            t.content = get_agent_response max_retries a q h := by
  intro order
  induction order with
  | nil => intro hist frames; exact ⟨[], by simp [run_order], rfl, by simp⟩
  | cons a rest ih =>
    intro hist frames
    obtain ⟨ts', h1, h2, h3⟩ := ih
      (hist ++ [⟨a.name, get_agent_response max_retries a q hist, some r⟩])
      (frames ++ [mk_frame q
        (hist ++ [⟨a.name, get_agent_response max_retries a q hist, some r⟩])
        "debating"])
    refine ⟨⟨a.name, get_agent_response max_retries a q hist, some r⟩ :: ts',
      ?_, by simp [h2], ?_⟩
    · show (run_order max_retries q r rest _ _).1 = _
      rw [h1]
      simp
    · intro t ht
      rcases List.mem_cons.mp ht with rfl | ht'
      · exact ⟨rfl, a, List.mem_cons_self a rest, hist, rfl, rfl⟩
      · obtain ⟨hr, a', ha', h', hsp, hc⟩ := h3 t ht'
        exact ⟨hr, a', List.mem_cons_of_mem a ha', h', hsp, hc⟩

theorem run_rounds_spec (cfg : OrchestratorConfig) (agents : List Agent)
    (shuffle : List Agent → G → List Agent × G)
    (hsh : ∀ l g, ((shuffle l g).1).Perm l) (max_retries : Nat) (q : String) :
    ∀ (rs : List Nat) (g : G) (hist : List Turn) (frames : List Frame),
      ∃ ts : List Turn,
        (run_rounds cfg agents shuffle max_retries q rs g hist frames).1 =
          hist ++ ts ∧
        ts.length = rs.length * agents.length ∧
        ∀ t ∈ ts, (∃ r ∈ rs, t.round = some r) ∧
          ∃ a ∈ agents, ∃ h : List Turn,
            t.speaker = a.name ∧
            t.content = get_agent_response max_retries a q h := by
  intro rs
  induction rs with
  | nil => intro g hist frames; exact ⟨[], by simp [run_rounds], by simp, by simp⟩
  | cons r rs ih =>
    intro g hist frames
    obtain ⟨ts1, h1, hlen1, hmem1⟩ := run_order_spec max_retries q r
      (agent_order cfg agents shuffle g).1 hist frames
    obtain ⟨ts2, h2, hlen2, hmem2⟩ := ih (agent_order cfg agents shuffle g).2
      (run_order max_retries q r (agent_order cfg agents shuffle g).1 hist frames).1
      (run_order max_retries q r (agent_order cfg agents shuffle g).1 hist frames).2
    refine ⟨ts1 ++ ts2, ?_, ?_, ?_⟩
    · show (run_rounds cfg agents shuffle max_retries q rs _ _ _).1 = _
      rw [h2, h1, List.append_assoc]
    · have hper := (agent_order_perm cfg agents shuffle hsh g).length_eq
      simp only [List.length_append, hlen1, hlen2, hper, List.length_cons]
      ring
    · intro t ht
      rcases List.mem_append.mp ht with ht' | ht'
      · obtain ⟨hr, a, ha, h', hsp, hc⟩ := hmem1 t ht'
        exact ⟨⟨r, List.mem_cons_self r rs, hr⟩,
          a, (agent_order_perm cfg agents shuffle hsh g).mem_iff.mp ha, h', hsp, hc⟩
      · obtain ⟨⟨r', hr', hrnd⟩, a, ha, h', hsp, hc⟩ := hmem2 t ht'
        exact ⟨⟨r', List.mem_cons_of_mem r hr', hrnd⟩, a, ha, h', hsp, hc⟩

theorem apply_summary_hist
    (summarizer : Option (String → List Turn → Except String String))
    (enabled : Bool) (q : String) (hist : List Turn) :
    (apply_summary summarizer enabled q hist).1 = hist ∨
    ∃ stext, (apply_summary summarizer enabled q hist).1 =
      hist ++ [⟨"Summary", stext, none⟩] := by
  unfold apply_summary
  split
  · cases summarizer with
    | none => exact Or.inl rfl
    | some summ =>
      cases h : summ q hist with
      | ok stext => exact Or.inr ⟨stext, by simp [h]⟩
      | error e => simp [h]
  · exact Or.inl rfl

theorem apply_summary_fail
    (summ : String → List Turn → Except String String) (q : String)
    (hist : List Turn) (e : String) (he : summ q hist = .error e) :
    apply_summary (some summ) true q hist = (hist, none) := by
  unfold apply_summary
  simp [he]

/-- Shape of a successful `stream_debate` run: the final yielded frame is the
`completed` frame; its transcript is the seed turn, then one turn per agent
per round, then whatever `apply_summary` appends. -/
theorem stream_debate_completed (cfg : OrchestratorConfig) (agents : List Agent)
    (summarizer : Option (String → List Turn → Except String String))
    (shuffle : List Agent → G → List Agent × G) (g : G) (mem : MemoryStore τ)
    (now : τ) (question : String) (rounds? : Option Nat) (es? : Option Bool)
    (hq : trim_chars question.data ≠ [])
    (hsh : ∀ l g, ((shuffle l g).1).Perm l) :
    ∃ (frames : List Frame) (ts : List Turn),
      (stream_debate cfg agents summarizer shuffle g mem now question
        rounds? es?).1 = .ok frames ∧
      frames.getLast? = some
        ⟨py_strip question,
         (apply_summary summarizer (es?.getD cfg.enable_summary)
           (py_strip question)
           ([⟨"User", py_strip question, none⟩] ++ ts)).1,
         (apply_summary summarizer (es?.getD cfg.enable_summary)
           (py_strip question)
           ([⟨"User", py_strip question, none⟩] ++ ts)).2,
         none, "completed"⟩ ∧
      ts.length = resolve_rounds cfg rounds? * agents.length ∧
      ∀ t ∈ ts,
        (∃ r ∈ List.range' 1 (resolve_rounds cfg rounds?), t.round = some r) ∧
        ∃ a ∈ agents, ∃ h : List Turn, t.speaker = a.name ∧
          t.content = get_agent_response cfg.max_retries a (py_strip question) h := by
  obtain ⟨ts, h1, hlen, hmem⟩ := run_rounds_spec cfg agents shuffle hsh
    cfg.max_retries (py_strip question)
    (List.range' 1 (resolve_rounds cfg rounds?)) g
    [⟨"User", py_strip question, none⟩]
    [mk_frame (py_strip question) [⟨"User", py_strip question, none⟩] "started"]
  rw [List.length_range'] at hlen
  refine ⟨(run_rounds cfg agents shuffle cfg.max_retries (py_strip question)
      (List.range' 1 (resolve_rounds cfg rounds?)) g
      [⟨"User", py_strip question, none⟩]
      [mk_frame (py_strip question) [⟨"User", py_strip question, none⟩]
        "started"]).2.1 ++
      [⟨py_strip question,
        (apply_summary summarizer (es?.getD cfg.enable_summary)
          (py_strip question) ([⟨"User", py_strip question, none⟩] ++ ts)).1,
        (apply_summary summarizer (es?.getD cfg.enable_summary)
          (py_strip question) ([⟨"User", py_strip question, none⟩] ++ ts)).2,
        none, "completed"⟩],
    ts, ?_, List.getLast?_concat _, hlen, hmem⟩
  simp only [stream_debate, ensure_non_empty_ok hq]
  rw [h1]

/-- C1: for a non-empty question, R ≥ 1 rounds and P registered debating
personas, the completed frame's transcript, excluding the seed turn and any
summary turn (the turns with no `round` field), has exactly R * P turns, and
every `round` value lies in `1..R`. -/
theorem c1_completed_transcript_shape (cfg : OrchestratorConfig)
    (agents : List Agent)
    (summarizer : Option (String → List Turn → Except String String))
    (shuffle : List Agent → G → List Agent × G) (g : G) (mem : MemoryStore τ)
    (now : τ) (question : String) (R : Nat) (es? : Option Bool)
    (hq : trim_chars question.data ≠ [])
    (hsh : ∀ l g, ((shuffle l g).1).Perm l)
    (hR : 1 ≤ R) :
    ∃ frames : List Frame,
      (stream_debate cfg agents summarizer shuffle g mem now question
        (some R) es?).1 = .ok frames ∧
      ∃ f, frames.getLast? = some f ∧ f.status = "completed" ∧
        (f.history.filter (fun t => t.round.isSome)).length =
          R * agents.length ∧
        ∀ t ∈ f.history, ∀ r, t.round = some r → 1 ≤ r ∧ r ≤ R := by
  obtain ⟨frames, ts, hstream, hlast, hlen, hmem⟩ :=
    stream_debate_completed cfg agents summarizer shuffle g mem now question
      (some R) es? hq hsh
  rw [resolve_rounds_pos cfg hR] at hlen hmem
  refine ⟨frames, hstream, _, hlast, rfl, ?_, ?_⟩
  · rcases apply_summary_hist summarizer (es?.getD cfg.enable_summary)
        (py_strip question) ([⟨"User", py_strip question, none⟩] ++ ts) with
      hh | ⟨stext, hh⟩ <;>
    · show ((apply_summary summarizer (es?.getD cfg.enable_summary)
          (py_strip question)
          ([⟨"User", py_strip question, none⟩] ++ ts)).1.filter
          (fun t => t.round.isSome)).length = R * agents.length
      rw [hh]
      rw [List.filter_append]
      try rw [List.filter_append]
      have hts : ts.filter (fun t => t.round.isSome) = ts :=
        List.filter_eq_self.mpr (fun t ht => by
          obtain ⟨⟨r, _, hrnd⟩, _⟩ := hmem t ht
          simp [hrnd])
      simp [hts, hlen]
  · intro t ht r hrnd
    show 1 ≤ r ∧ r ≤ R
    have hmem' : ∀ t ∈ ts, ∀ r, t.round = some r → 1 ≤ r ∧ r ≤ R := by
      intro t ht r hr
      obtain ⟨⟨r', hr', hrnd'⟩, _⟩ := hmem t ht
      rw [hr] at hrnd'
      obtain ⟨i, hi, hri⟩ := List.mem_range'.mp hr'
      have hrr : r = r' := Option.some.inj hrnd'
      omega
    rcases apply_summary_hist summarizer (es?.getD cfg.enable_summary)
        (py_strip question) ([⟨"User", py_strip question, none⟩] ++ ts) with
      hh | ⟨stext, hh⟩
    · rw [hh] at ht
      rcases List.mem_append.mp ht with hseed | hts
      · simp only [List.mem_singleton] at hseed
        rw [hseed] at hrnd
        simp at hrnd
      · exact hmem' t hts r hrnd
    · rw [hh] at ht
      rcases List.mem_append.mp ht with ht' | hsum
      · rcases List.mem_append.mp ht' with hseed | hts
        · simp only [List.mem_singleton] at hseed
          rw [hseed] at hrnd
          simp at hrnd
        · exact hmem' t hts r hrnd
      · simp only [List.mem_singleton] at hsum
        rw [hsum] at hrnd
        simp at hrnd

/-- C3: the per-turn retry loop tries attempts sequentially, the first
success short-circuits and becomes the turn content; if every attempt
raises, the content is exactly the sentinel
`"[Error: {persona} failed after {max_retries} attempts]"`, such sentinel
turns are appended to the transcript like normal replies (they are counted
among the per-round turns), and the run still reaches `completed`. -/
theorem c3_retry_first_success_and_sentinel (cfg : OrchestratorConfig)
    (agents : List Agent)
    (summarizer : Option (String → List Turn → Except String String))
    (shuffle : List Agent → G → List Agent × G) (g : G) (mem : MemoryStore τ)
    (now : τ) (question : String) (rounds? : Option Nat) (es? : Option Bool)
    (hq : trim_chars question.data ≠ [])
    (hsh : ∀ l g, ((shuffle l g).1).Perm l)
    (hfail : ∀ a ∈ agents, ∀ (i : Nat) (q' : String) (h : List Turn),
      ∃ e, a.reply i q' h = .error e) :
    (∀ (a : Agent) (q' : String) (hist : List Turn) (i : Nat) (sr : String),
      i < cfg.max_retries → a.reply i q' hist = .ok sr →
      (∀ j, j < i → ∃ e, a.reply j q' hist = .error e) →
      get_agent_response cfg.max_retries a q' hist = sr) ∧
    (∀ (a : Agent) (q' : String) (hist : List Turn),
      (∀ i, i < cfg.max_retries → ∃ e, a.reply i q' hist = .error e) →
      get_agent_response cfg.max_retries a q' hist =
        error_sentinel a.key cfg.max_retries) ∧
    (∃ frames : List Frame,
      (stream_debate cfg agents summarizer shuffle g mem now question
        rounds? es?).1 = .ok frames ∧
      ∃ f, frames.getLast? = some f ∧ f.status = "completed" ∧
        (f.history.filter (fun t => t.round.isSome)).length =
          resolve_rounds cfg rounds? * agents.length ∧
        ∀ t ∈ f.history, t.round.isSome = true →
          ∃ a ∈ agents, t.speaker = a.name ∧
            t.content = error_sentinel a.key cfg.max_retries) := by
  refine ⟨fun a q' hist i sr hi hok hf =>
      get_agent_response_first_success cfg.max_retries a q' hist i sr hi hok hf,
    fun a q' hist h => get_agent_response_all_fail cfg.max_retries a q' hist h,
    ?_⟩
  obtain ⟨frames, ts, hstream, hlast, hlen, hmem⟩ :=
    stream_debate_completed cfg agents summarizer shuffle g mem now question
      rounds? es? hq hsh
  have hsent : ∀ t ∈ ts, ∃ a ∈ agents, t.speaker = a.name ∧
      t.content = error_sentinel a.key cfg.max_retries := by
    intro t ht
    obtain ⟨_, a, ha, h', hsp, hc⟩ := hmem t ht
    refine ⟨a, ha, hsp, ?_⟩
    rw [hc]
    exact get_agent_response_all_fail cfg.max_retries a (py_strip question) h'
      (fun i _ => hfail a ha i (py_strip question) h')
  refine ⟨frames, hstream, _, hlast, rfl, ?_, ?_⟩
  · rcases apply_summary_hist summarizer (es?.getD cfg.enable_summary)
        (py_strip question) ([⟨"User", py_strip question, none⟩] ++ ts) with
      hh | ⟨stext, hh⟩ <;>
    · show ((apply_summary summarizer (es?.getD cfg.enable_summary)
          (py_strip question)
          ([⟨"User", py_strip question, none⟩] ++ ts)).1.filter
          (fun t => t.round.isSome)).length =
        resolve_rounds cfg rounds? * agents.length
      rw [hh]
      rw [List.filter_append]
      try rw [List.filter_append]
      have hts : ts.filter (fun t => t.round.isSome) = ts :=
        List.filter_eq_self.mpr (fun t ht => by
          obtain ⟨⟨r, _, hrnd⟩, _⟩ := hmem t ht
          simp [hrnd])
      simp [hts, hlen]
  · intro t ht hrnd
    rcases apply_summary_hist summarizer (es?.getD cfg.enable_summary)
        (py_strip question) ([⟨"User", py_strip question, none⟩] ++ ts) with
      hh | ⟨stext, hh⟩
    · rw [hh] at ht
      rcases List.mem_append.mp ht with hseed | hts
      · simp only [List.mem_singleton] at hseed
        rw [hseed] at hrnd
        simp at hrnd
      · exact hsent t hts
    · rw [hh] at ht
      rcases List.mem_append.mp ht with ht' | hsum
      · rcases List.mem_append.mp ht' with hseed | hts
        · simp only [List.mem_singleton] at hseed
          rw [hseed] at hrnd
          simp at hrnd
        · exact hsent t hts
      · simp only [List.mem_singleton] at hsum
        rw [hsum] at hrnd
        simp at hrnd

/-- C5: when summarization is enabled and the registered summarizer raises,
the exception is swallowed: the final frame is still `completed` with null
summary and null error, and no summary turn is appended (the only turn
without a `round` field is the seed user turn). -/
theorem c5_summary_failure_swallowed (cfg : OrchestratorConfig)
    (agents : List Agent)
    (summ : String → List Turn → Except String String)
    (shuffle : List Agent → G → List Agent × G) (g : G) (mem : MemoryStore τ)
    (now : τ) (question : String) (rounds? : Option Nat) (es? : Option Bool)
    (hq : trim_chars question.data ≠ [])
    (hsh : ∀ l g, ((shuffle l g).1).Perm l)
    (hes : es?.getD cfg.enable_summary = true)
    (hsummfail : ∀ q' h, ∃ e, summ q' h = .error e) :
    ∃ frames : List Frame,
      (stream_debate cfg agents (some summ) shuffle g mem now question
        rounds? es?).1 = .ok frames ∧
      ∃ f, frames.getLast? = some f ∧ f.status = "completed" ∧
        f.summary = none ∧ f.error = none ∧
        f.history.filter (fun t => t.round.isNone) =
          [⟨"User", py_strip question, none⟩] := by
  obtain ⟨frames, ts, hstream, hlast, hlen, hmem⟩ :=
    stream_debate_completed cfg agents (some summ) shuffle g mem now question
      rounds? es? hq hsh
  obtain ⟨e, he⟩ := hsummfail (py_strip question)
    ([⟨"User", py_strip question, none⟩] ++ ts)
  rw [hes, apply_summary_fail summ _ _ e he] at hlast
  refine ⟨frames, hstream, _, hlast, rfl, rfl, rfl, ?_⟩
  show ((([(⟨"User", py_strip question, none⟩ : Turn)] ++ ts).filter
      (fun t => t.round.isNone))) = [(⟨"User", py_strip question, none⟩ : Turn)]
  rw [List.filter_append]
  have hts : ts.filter (fun t => t.round.isNone) = [] := by
    rw [List.filter_eq_nil_iff]
    intro t ht
    obtain ⟨⟨r, _, hrnd⟩, _⟩ := hmem t ht
    simp [hrnd]
  rw [hts]
  rfl

/-- C6: an empty or whitespace-only question is rejected by validation
before any mutation: the stream raises the validation error instead of
yielding frames, and the memory store (and generator state) are returned
untouched; the batch form propagates the same error. -/
theorem c6_empty_question_rejected (cfg : OrchestratorConfig)
    (agents : List Agent)
    (summarizer : Option (String → List Turn → Except String String))
    (shuffle : List Agent → G → List Agent × G) (g : G) (mem : MemoryStore τ)
    (now : τ) (question : String) (rounds? : Option Nat) (es? : Option Bool)
    (hq : trim_chars question.data = []) :
    stream_debate cfg agents summarizer shuffle g mem now question
        rounds? es? =
      (.error "question cannot be empty", mem, g) ∧
    run_debate cfg agents summarizer shuffle g mem now question rounds? es? =
      (.error "question cannot be empty", mem, g) := by
  have h1 : stream_debate cfg agents summarizer shuffle g mem now question
      rounds? es? = (.error "question cannot be empty", mem, g) := by
    simp only [stream_debate, ensure_non_empty_err hq]
    rfl
  refine ⟨h1, ?_⟩
  simp only [run_debate, h1]

/-- C9: a configured random seed fixes the shared generator state at
construction (`random.seed`), making the whole streamed run — in particular
every round's participant ordering — independent of the generator state
before construction: two runs with identical inputs coincide. -/
theorem c9_seeded_runs_deterministic (seed_fn : Nat → G)
    (cfg : OrchestratorConfig) (s : Nat) (agents : List Agent)
    (summarizer : Option (String → List Turn → Except String String))
    (shuffle : List Agent → G → List Agent × G) (g1 g2 : G)
    (mem : MemoryStore τ) (now : τ) (question : String)
    (rounds? : Option Nat) (es? : Option Bool)
    (hseed : cfg.random_seed = some s) :
    seeded_rng seed_fn cfg.random_seed g1 = seed_fn s ∧
    stream_debate cfg agents summarizer shuffle
        (seeded_rng seed_fn cfg.random_seed g1) mem now question rounds? es? =
      stream_debate cfg agents summarizer shuffle
        (seeded_rng seed_fn cfg.random_seed g2) mem now question rounds? es? := by
  rw [hseed]
  exact ⟨rfl, rfl⟩

/-- C2: from any store within its bound, no sequence of `add_entry` calls
ever pushes the entry count above `max_entries`; and whenever one insertion
makes the count exceed the bound, exactly one entry — one with the smallest
timestamp — is removed, leaving exactly `max_entries` entries. -/
theorem c2_size_bound_and_oldest_eviction (s : MemoryStore τ)
    (hinv : s.size ≤ s.max_entries) :
    (∀ ops : List (AddOp τ), (apply_adds s ops).size ≤ s.max_entries) ∧
    (∀ (k v : String) (now : τ) (src : String),
      (s.entries.map MemoryEntry.key).Nodup →
      s.max_entries < (dict_insert s.entries ⟨k, v, now, src⟩).length →
      (s.add_entry k v now src).size = s.max_entries ∧
      ∃ m l1 l2,
        dict_insert s.entries ⟨k, v, now, src⟩ = l1 ++ m :: l2 ∧
        (s.add_entry k v now src).entries = l1 ++ l2 ∧
        ∀ x ∈ dict_insert s.entries ⟨k, v, now, src⟩,
          m.timestamp ≤ x.timestamp) := by
  refine ⟨fun ops => apply_adds_size_le s ops hinv, ?_⟩
  intro k v now src hnd hover
  obtain ⟨m, l1, l2, hins, hres, hmin, _⟩ := add_entry_evicts s k v now src hnd hover
  have hlen := dict_insert_length s.entries (⟨k, v, now, src⟩ : MemoryEntry τ)
  have h1 : (dict_insert s.entries ⟨k, v, now, src⟩).length =
      l1.length + l2.length + 1 := by
    rw [hins]
    simp only [List.length_append, List.length_cons]
    omega
  have h2 : (s.add_entry k v now src).size = l1.length + l2.length := by
    simp [MemoryStore.size, hres]
  simp only [MemoryStore.size] at hinv
  exact ⟨by omega, m, l1, l2, hins, hres, hmin⟩

/-- C10: when an insertion over capacity triggers eviction, the evicted
entry is the earliest-inserted one among those sharing the smallest
timestamp: every entry before it in dict order has a strictly greater
timestamp (Python's `sorted` is stable over insertion order). -/
theorem c10_eviction_stable_tiebreak (s : MemoryStore τ) (k v : String)
    (now : τ) (src : String)
    (hnd : (s.entries.map MemoryEntry.key).Nodup)
    (hover : s.max_entries < (dict_insert s.entries ⟨k, v, now, src⟩).length) :
    ∃ m l1 l2,
      dict_insert s.entries ⟨k, v, now, src⟩ = l1 ++ m :: l2 ∧
      (s.add_entry k v now src).entries = l1 ++ l2 ∧
      (∀ x ∈ dict_insert s.entries ⟨k, v, now, src⟩,
        m.timestamp ≤ x.timestamp) ∧
      (∀ x ∈ l1, m.timestamp < x.timestamp) :=
  add_entry_evicts s k v now src hnd hover

/-- C8: `format_for_prompt` returns the fixed sentinel on an empty store;
on a non-empty store (with a positive limit) it renders exactly
`min limit size` entries, drawn from the store, most recent first. -/
theorem c8_render_digest (s : MemoryStore τ) (limit : Nat) :
    (s.entries = [] → s.format_for_prompt limit = "No relevant memory.") ∧
    (s.get_recent limit).length = min limit s.size ∧
    List.Pairwise ts_ge (s.get_recent limit) ∧
    (∀ e ∈ s.get_recent limit, e ∈ s.entries) ∧
    (s.entries ≠ [] → 1 ≤ limit →
      s.format_for_prompt limit =
        String.intercalate "\n"
          ("Recent relevant context:" ::
            (s.get_recent limit).map render_entry)) := by
  have hperm := List.perm_insertionSort (ts_ge (τ := τ)) s.entries
  have hlen : (s.get_recent limit).length = min limit s.size := by
    show ((sorted_desc_by_timestamp s.entries).take limit).length = _
    rw [List.length_take]
    show min limit (List.insertionSort ts_ge s.entries).length = _
    rw [hperm.length_eq]
    rfl
  refine ⟨?_, hlen, ?_, ?_, ?_⟩
  · intro h
    simp [MemoryStore.format_for_prompt, MemoryStore.get_recent,
      sorted_desc_by_timestamp, h, List.insertionSort]
  · exact List.Pairwise.sublist (List.take_sublist _ _)
      (List.sorted_insertionSort (ts_ge (τ := τ)) s.entries)
  · intro e he
    exact hperm.mem_iff.mp ((List.take_sublist _ _).subset he)
  · intro hne hlim
    have hpos : 0 < (s.get_recent limit).length := by
      rw [hlen]
      have := List.length_pos.mpr hne
      show 0 < min limit s.entries.length
      omega
    have hrec : (s.get_recent limit).isEmpty = false := by
      cases hr : s.get_recent limit with
      | nil => rw [hr] at hpos; simp at hpos
      | cons x xs => rfl
    simp [MemoryStore.format_for_prompt, hrec]

/-- C7: with tools enabled, the classifier maps the four literal prompts to
math, web-search, clock and web-search respectively. -/
theorem c7_tool_classifier_literal_cases :
    detect_tool_needed true "Calculate 5 + 3" = some "calculate" ∧
    detect_tool_needed true "Search for Plato\x27s cave" = some "web_search" ∧
    detect_tool_needed true "What is the current time?" = some "get_current_info" ∧
    detect_tool_needed true "Explain the theory of forms" = some "web_search" :=
  ⟨by decide, by decide, by decide, by decide⟩

/-- C4 fails on the code: on the tool-assisted path `generate_response`
returns early, recording only the `tool_{tool}_{len}` entry and never the
`aristotle_insight_{len}` entry, even though memory is available and the
reply is non-empty. Concrete run: tools enabled, prompt "Calculate 5+3",
empty history, an available memory store, a non-empty base reply. -/
theorem c4_counterexample_tool_path_skips_insight :
    (aristotle_generate_response true "Aristotle" (fun _ _ => "ok")
        (fun _ _ => "Result: 8") "Calculate 5+3" []
        (some (⟨10, []⟩ : MemoryStore Nat)) 0).1 = "ok" ∧
    (aristotle_generate_response true "Aristotle" (fun _ _ => "ok")
        (fun _ _ => "Result: 8") "Calculate 5+3" []
        (some (⟨10, []⟩ : MemoryStore Nat)) 0).2 =
      some (⟨10, [⟨"tool_calculate_0", "Result: 8", 0, "Aristotle"⟩]⟩ :
        MemoryStore Nat) ∧
    (⟨10, [⟨"tool_calculate_0", "Result: 8", 0, "Aristotle"⟩]⟩ :
        MemoryStore Nat).get_entry "aristotle_insight_0" = none :=
  ⟨by decide, by decide, by decide⟩

/-- C4 amended: only when the tool-assisted path is not taken (tools
disabled, no intent signal, or no tool classified) does a non-empty reply
get recorded — under key `aristotle_insight_{len(history)}` with the
persona's name as source — when a memory store is available; the reply is
the base reply to the unmodified prompt. -/
theorem c4_insight_recorded_on_plain_path (name : String)
    (base_gen : String → List Turn → String)
    (tool_exec : String → String → String) (user_prompt : String)
    (history : List Turn) (m : MemoryStore τ) (now : τ) (tools_enabled : Bool)
    (hpath : tools_enabled = false ∨
      should_use_tools user_prompt history = false ∨
      detect_tool_needed tools_enabled user_prompt = none) :
    (aristotle_generate_response tools_enabled name base_gen tool_exec
        user_prompt history (some m) now).1 = base_gen user_prompt history ∧
    ((aristotle_generate_response tools_enabled name base_gen tool_exec
        user_prompt history (some m) now).1 ≠ "" →
      (aristotle_generate_response tools_enabled name base_gen tool_exec
          user_prompt history (some m) now).2 =
        some (m.add_entry ("aristotle_insight_" ++ toString history.length)
          ((aristotle_generate_response tools_enabled name base_gen tool_exec
            user_prompt history (some m) now).1) now name)) := by
  have hplain : aristotle_generate_response tools_enabled name base_gen
      tool_exec user_prompt history (some m) now =
      aristotle_plain_path name base_gen user_prompt history (some m) now := by
    rcases hpath with h | h | h
    · subst h; rfl
    · unfold aristotle_generate_response
      rw [h]
      simp
    · unfold aristotle_generate_response
      split
      · rw [h]
      · rfl
  rw [hplain]
  refine ⟨rfl, fun hne => ?_⟩
  have hne' : base_gen user_prompt history ≠ "" := hne
  show (if base_gen user_prompt history = "" then some m
      else (some m).map (fun m0 => m0.add_entry
        ("aristotle_insight_" ++ toString history.length)
        (base_gen user_prompt history) now name)) =
    some (m.add_entry ("aristotle_insight_" ++ toString history.length)
      (base_gen user_prompt history) now name)
  rw [if_neg hne']
  rfl

/-! ### Concrete instances used by the witnesses -/

/-- A fresh in-bound memory store over `Nat` timestamps. -/
def demo_mem : MemoryStore Nat := ⟨1000, []⟩

/-- A plain orchestrator configuration (no seed, fixed order). -/
def demo_cfg : OrchestratorConfig := ⟨3, true, none, 3, false⟩

/-- A seeded configuration with shuffled order. -/
def demo_cfg_seeded : OrchestratorConfig := ⟨3, true, some 7, 3, true⟩

/-- Identity shuffle on a unit generator state. -/
def demo_shuffle : List Agent → Unit → List Agent × Unit := fun l g => (l, g)

/-- An agent whose reply always succeeds. -/
def demo_agent_ok : Agent := ⟨"socrates", "Socrates", fun _ _ _ => .ok "reply"⟩

/-- An agent whose reply always raises. -/
def demo_agent_fail : Agent :=
  ⟨"socrates", "Socrates", fun _ _ _ => .error "boom"⟩

/-- A full store at capacity one. -/
def demo_store : MemoryStore Nat := ⟨1, [⟨"a", "1", 0, "u"⟩]⟩

/-- A two-entry store under a generous bound. -/
def demo_store2 : MemoryStore Nat := ⟨5, [⟨"a", "1", 0, "u"⟩, ⟨"b", "2", 1, "u"⟩]⟩

/-- A full store whose entry shares the timestamp of the next insertion. -/
def demo_store_tie : MemoryStore Nat := ⟨1, [⟨"a", "1", 5, "u"⟩]⟩

/-! ### Witnesses -/

/-- Witness for C1 at a concrete run: one agent, two rounds. -/
theorem c1_witness :
    ∃ frames : List Frame,
      (stream_debate demo_cfg [demo_agent_ok] none demo_shuffle () demo_mem 0
        "Why?" (some 2) none).1 = .ok frames ∧
      ∃ f, frames.getLast? = some f ∧ f.status = "completed" ∧
        (f.history.filter (fun t => t.round.isSome)).length =
          2 * [demo_agent_ok].length ∧
        ∀ t ∈ f.history, ∀ r, t.round = some r → 1 ≤ r ∧ r ≤ 2 :=
  c1_completed_transcript_shape demo_cfg [demo_agent_ok] none demo_shuffle ()
    demo_mem 0 "Why?" 2 none (by decide) (fun l _ => List.Perm.refl l)
    (by decide)

/-- Witness for C2 at a concrete store: capacity one, one insertion over. -/
theorem c2_witness :
    (apply_adds demo_store [⟨"b", "2", 1, "u"⟩]).size ≤
      demo_store.max_entries ∧
    ((demo_store.add_entry "b" "2" 1 "u").size = demo_store.max_entries ∧
      ∃ m l1 l2,
        dict_insert demo_store.entries ⟨"b", "2", 1, "u"⟩ = l1 ++ m :: l2 ∧
        (demo_store.add_entry "b" "2" 1 "u").entries = l1 ++ l2 ∧
        ∀ x ∈ dict_insert demo_store.entries ⟨"b", "2", 1, "u"⟩,
          m.timestamp ≤ x.timestamp) :=
  ⟨(c2_size_bound_and_oldest_eviction demo_store (by decide)).1
      [⟨"b", "2", 1, "u"⟩],
   (c2_size_bound_and_oldest_eviction demo_store (by decide)).2 "b" "2" 1 "u"
      (by decide) (by decide)⟩

/-- Witness for C3 at a concrete run with an always-failing agent. -/
theorem c3_witness :
    (∀ (a : Agent) (q' : String) (hist : List Turn) (i : Nat) (sr : String),
      i < demo_cfg.max_retries → a.reply i q' hist = .ok sr →
      (∀ j, j < i → ∃ e, a.reply j q' hist = .error e) →
      get_agent_response demo_cfg.max_retries a q' hist = sr) ∧
    (∀ (a : Agent) (q' : String) (hist : List Turn),
      (∀ i, i < demo_cfg.max_retries → ∃ e, a.reply i q' hist = .error e) →
      get_agent_response demo_cfg.max_retries a q' hist =
        error_sentinel a.key demo_cfg.max_retries) ∧
    (∃ frames : List Frame,
      (stream_debate demo_cfg [demo_agent_fail] none demo_shuffle () demo_mem 0
        "Why?" (some 1) none).1 = .ok frames ∧
      ∃ f, frames.getLast? = some f ∧ f.status = "completed" ∧
        (f.history.filter (fun t => t.round.isSome)).length =
          resolve_rounds demo_cfg (some 1) * [demo_agent_fail].length ∧
        ∀ t ∈ f.history, t.round.isSome = true →
          ∃ a ∈ [demo_agent_fail], t.speaker = a.name ∧
            t.content = error_sentinel a.key demo_cfg.max_retries) :=
  c3_retry_first_success_and_sentinel demo_cfg [demo_agent_fail] none
    demo_shuffle () demo_mem 0 "Why?" (some 1) none (by decide)
    (fun l _ => List.Perm.refl l)
    (by
      intro a ha i q' h
      simp only [List.mem_singleton] at ha
      subst ha
      exact ⟨"boom", rfl⟩)

/-- Witness for the amended C4 on the non-tool path (tools disabled). -/
theorem c4_witness :
    (aristotle_generate_response false "Aristotle" (fun _ _ => "insight")
        (fun _ _ => "") "Why?" [] (some (⟨10, []⟩ : MemoryStore Nat)) 0).1 =
      "insight" ∧
    (aristotle_generate_response false "Aristotle" (fun _ _ => "insight")
        (fun _ _ => "") "Why?" [] (some (⟨10, []⟩ : MemoryStore Nat)) 0).2 =
      some ((⟨10, []⟩ : MemoryStore Nat).add_entry "aristotle_insight_0"
        ((aristotle_generate_response false "Aristotle" (fun _ _ => "insight")
          (fun _ _ => "") "Why?" [] (some (⟨10, []⟩ : MemoryStore Nat)) 0).1)
        0 "Aristotle") :=
  ⟨(c4_insight_recorded_on_plain_path "Aristotle" (fun _ _ => "insight")
      (fun _ _ => "") "Why?" [] ⟨10, []⟩ 0 false (Or.inl rfl)).1,
   (c4_insight_recorded_on_plain_path "Aristotle" (fun _ _ => "insight")
      (fun _ _ => "") "Why?" [] ⟨10, []⟩ 0 false (Or.inl rfl)).2 (by decide)⟩

/-- Witness for C5 at a concrete run with an always-raising summarizer. -/
theorem c5_witness :
    ∃ frames : List Frame,
      (stream_debate demo_cfg [demo_agent_ok]
        (some (fun _ _ => .error "sfail")) demo_shuffle () demo_mem 0 "Why?"
        (some 1) (some true)).1 = .ok frames ∧
      ∃ f, frames.getLast? = some f ∧ f.status = "completed" ∧
        f.summary = none ∧ f.error = none ∧
        f.history.filter (fun t => t.round.isNone) =
          [⟨"User", py_strip "Why?", none⟩] :=
  c5_summary_failure_swallowed demo_cfg [demo_agent_ok]
    (fun _ _ => .error "sfail") demo_shuffle () demo_mem 0 "Why?" (some 1)
    (some true) (by decide) (fun l _ => List.Perm.refl l) rfl
    (fun _ _ => ⟨"sfail", rfl⟩)

/-- Witness for C6 at a whitespace-only question. -/
theorem c6_witness :
    stream_debate demo_cfg [demo_agent_ok] none demo_shuffle () demo_mem 0
        "  " none none = (.error "question cannot be empty", demo_mem, ()) ∧
    run_debate demo_cfg [demo_agent_ok] none demo_shuffle () demo_mem 0 "  "
        none none = (.error "question cannot be empty", demo_mem, ()) :=
  c6_empty_question_rejected demo_cfg [demo_agent_ok] none demo_shuffle ()
    demo_mem 0 "  " none none (by decide)

/-- Witness for C8 at a concrete two-entry store with limit five. -/
theorem c8_witness :
    (demo_store2.get_recent 5).length = min 5 demo_store2.size ∧
    List.Pairwise ts_ge (demo_store2.get_recent 5) ∧
    (∀ e ∈ demo_store2.get_recent 5, e ∈ demo_store2.entries) ∧
    demo_store2.format_for_prompt 5 =
      String.intercalate "\n"
        ("Recent relevant context:" ::
          (demo_store2.get_recent 5).map render_entry) :=
  ⟨(c8_render_digest demo_store2 5).2.1,
   (c8_render_digest demo_store2 5).2.2.1,
   (c8_render_digest demo_store2 5).2.2.2.1,
   (c8_render_digest demo_store2 5).2.2.2.2 (by decide) (by decide)⟩

/-- Witness for C9: two different pre-construction generator states, same
configured seed, identical streamed runs. -/
theorem c9_witness :
    seeded_rng (fun n => n) demo_cfg_seeded.random_seed 11 = 7 ∧
    stream_debate demo_cfg_seeded [demo_agent_ok] none (fun l g => (l, g))
        (seeded_rng (fun n => n) demo_cfg_seeded.random_seed 11) demo_mem 0
        "Why?" (some 1) none =
      stream_debate demo_cfg_seeded [demo_agent_ok] none (fun l g => (l, g))
        (seeded_rng (fun n => n) demo_cfg_seeded.random_seed 22) demo_mem 0
        "Why?" (some 1) none :=
  c9_seeded_runs_deterministic (fun n => n) demo_cfg_seeded 7 [demo_agent_ok]
    none (fun l g => (l, g)) 11 22 demo_mem 0 "Why?" (some 1) none rfl

/-- Witness for C10 at a store whose resident entry ties on timestamp with
the incoming one: the resident (earliest-inserted) is the one evicted. -/
theorem c10_witness :
    ∃ m l1 l2,
      dict_insert demo_store_tie.entries ⟨"b", "2", 5, "u"⟩ = l1 ++ m :: l2 ∧
      (demo_store_tie.add_entry "b" "2" 5 "u").entries = l1 ++ l2 ∧
      (∀ x ∈ dict_insert demo_store_tie.entries ⟨"b", "2", 5, "u"⟩,
        m.timestamp ≤ x.timestamp) ∧
      (∀ x ∈ l1, m.timestamp < x.timestamp) :=
  c10_eviction_stable_tiebreak demo_store_tie "b" "2" 5 "u" (by decide)
    (by decide)

end DebateSystem
